import Mathlib

/-!
Verification of the `qq-group-name-extract` repository: a shallow embedding
of its HTML-table extraction library (`src/table.rs`), its member mapper
(`src/qqtable.rs`) and its conversion driver (`src/main.rs`), together with
theorems settling the specification claims.

The external HTML parser (the `scraper`/`html5ever` crates) is modelled by an
explicit tree type `Node`; the entry points that in Rust take an HTML string
and first parse it are embedded as functions taking the already-parsed tree.
Serialization of a node's children back to a string (Rust `inner_html()`)
is embedded directly, including the text escaping the serializer performs.
-/

namespace QQExtract

/-- Model of a parsed HTML node: either a text node or an element with a tag
name, an attribute list and a list of children (document order). -/
inductive Node where
  | text (s : String) : Node
  | elem (tag : String) (attrs : List (String × String)) (children : List Node) : Node
  deriving Repr

mutual

/-- Decidable equality of nodes (spelled out because `deriving` does not
handle the nested induction). -/
def nodeDecEq : (a b : Node) → Decidable (a = b)
  | .text s, .text t =>
      match decEq s t with
      | isTrue h => isTrue (by rw [h])
      | isFalse h => isFalse (by intro hh; cases hh; exact h rfl)
  | .text _, .elem _ _ _ => isFalse (by intro hh; cases hh)
  | .elem _ _ _, .text _ => isFalse (by intro hh; cases hh)
  | .elem t1 a1 c1, .elem t2 a2 c2 =>
      match decEq t1 t2, decEq a1 a2, nodeDecEqList c1 c2 with
      | isTrue h1, isTrue h2, isTrue h3 => isTrue (by rw [h1, h2, h3])
      | isFalse h1, _, _ => isFalse (by intro hh; cases hh; exact h1 rfl)
      | _, isFalse h2, _ => isFalse (by intro hh; cases hh; exact h2 rfl)
      | _, _, isFalse h3 => isFalse (by intro hh; cases hh; exact h3 rfl)

/-- Decidable equality of node lists. -/
def nodeDecEqList : (a b : List Node) → Decidable (a = b)
  | [], [] => isTrue rfl
  | [], _ :: _ => isFalse (by intro hh; cases hh)
  | _ :: _, [] => isFalse (by intro hh; cases hh)
  | x :: xs, y :: ys =>
      match nodeDecEq x y, nodeDecEqList xs ys with
      | isTrue h1, isTrue h2 => isTrue (by rw [h1, h2])
      | isFalse h1, _ => isFalse (by intro hh; cases hh; exact h1 rfl)
      | _, isFalse h2 => isFalse (by intro hh; cases hh; exact h2 rfl)

end

instance : DecidableEq Node := nodeDecEq

/-- Void HTML elements, serialized without a closing tag (e.g. the `img`
tags appearing inside member cells). -/
def isVoidTag (t : String) : Bool :=
  ["area", "base", "br", "col", "embed", "hr", "img", "input",
   "link", "meta", "param", "source", "track", "wbr"].contains t

/-- Text-node escaping performed by the HTML serializer underlying
Rust `inner_html()`. -/
def escapeChar (c : Char) : String :=
  if c = '&' then "&amp;"
  else if c = '<' then "&lt;"
  else if c = '>' then "&gt;"
  else String.singleton c

/-- Escape a text node for serialization. -/
def escapeText (s : String) : String :=
  String.join (s.toList.map escapeChar)

/-- Attribute-value escaping performed by the HTML serializer. -/
def escapeAttrChar (c : Char) : String :=
  if c = '&' then "&amp;"
  else if c = '"' then "&quot;"
  else String.singleton c

/-- Escape an attribute value for serialization. -/
def escapeAttr (s : String) : String :=
  String.join (s.toList.map escapeAttrChar)

/-- Serialize one attribute as it appears inside a start tag. -/
def serializeAttr (a : String × String) : String :=
  " " ++ a.1 ++ "=\"" ++ escapeAttr a.2 ++ "\""

mutual

/-- Serialize a node back to HTML text, as the serializer behind
Rust `inner_html()` does. -/
def serializeNode : Node → String
  | .text s => escapeText s
  | .elem tag attrs children =>
      let op := "<" ++ tag ++ String.join (attrs.map serializeAttr) ++ ">"
      if isVoidTag tag then op
      else op ++ serializeNodes children ++ "</" ++ tag ++ ">"

/-- Serialize a list of sibling nodes in order. -/
def serializeNodes : List Node → String
  | [] => ""
  | n :: ns => serializeNode n ++ serializeNodes ns

end

mutual

/-- All elements satisfying `p` in the subtree rooted at the node, in
document (preorder) order, the node itself included. This models iterating
a parsed document with a tag selector. -/
def selectAll (p : Node → Bool) : Node → List Node
  | .text _ => []
  | .elem tag attrs children =>
      (if p (.elem tag attrs children) then [Node.elem tag attrs children] else [])
        ++ selectAllList p children

/-- The elements satisfying `p` in a forest, in document order. -/
def selectAllList (p : Node → Bool) : List Node → List Node
  | [] => []
  | n :: ns => selectAll p n ++ selectAllList p ns

end

/-- The elements satisfying `p` among the strict descendants of a node, in
document order. This models Rust `ElementRef::select`, which matches
descendants only. -/
def selectSub (p : Node → Bool) (n : Node) : List Node :=
  match n with
  | .text _ => []
  | .elem _ _ children => selectAllList p children

/-- The tag of an element node, or none for a text node. -/
def Node.tag? : Node → Option String
  | .text _ => none
  | .elem t _ _ => some t

/-- Predicate selecting elements with the given tag name; models the CSS
tag selectors (`table`, `tr`, `th`, `td`, `span`) used by the program. -/
def hasTag (t : String) (n : Node) : Bool :=
  n.tag? == some t

/-- Look up an attribute of an element by name. -/
def Node.attr? (n : Node) (key : String) : Option String :=
  match n with
  | .text _ => none
  | .elem _ attrs _ => (attrs.find? (fun a => a.1 == key)).map (·.2)

/-- Serialization of the children of a node; models Rust
`ElementRef::inner_html()`. -/
def innerHtml (n : Node) : String :=
  match n with
  | .text s => escapeText s
  | .elem _ _ children => serializeNodes children

/-- Model of Rust `str::trim`: remove leading and trailing whitespace. -/
def trimString (s : String) : String :=
  String.mk (((s.toList.dropWhile Char.isWhitespace).reverse.dropWhile
    Char.isWhitespace).reverse)

/-- Model of Rust `str::starts_with(char)`. -/
def startsWithChar (s : String) (c : Char) : Bool :=
  s.toList.head? == some c

/-- Model of `cell_content` in `src/table.rs`: the trimmed inner HTML of a
cell element. -/
def cell_content (n : Node) : String :=
  trimString (innerHtml n)

/-- The header map of a table: header text to zero-based column index.
The Rust source uses a `HashMap<String, usize>`; it is modelled by an
association list with overwriting insert, which has the same `insert`,
lookup and `is_empty` behaviour (iteration order of the map is never used
by the program). -/
abbrev Headers := List (String × Nat)

/-- Model of `HashMap::insert`: an existing binding for the key is
overwritten, otherwise the binding is added. -/
def Headers.insert (m : Headers) (k : String) (v : Nat) : Headers :=
  match m with
  | [] => [(k, v)]
  | (k1, v1) :: rest =>
      if k1 = k then (k, v) :: rest else (k1, v1) :: Headers.insert rest k v

/-- Model of `HashMap::get`. -/
def Headers.get? (m : Headers) (k : String) : Option Nat :=
  (m.find? (fun a => a.1 == k)).map (·.2)

/-- Model of the `Table` struct of `src/table.rs`. -/
structure Table where
  headers : Headers
  data : List (List String)
  deriving DecidableEq, Repr

/-- Model of `select_cells` in `src/table.rs`: contents of the cells with
the given tag among an element's descendants, in document order. -/
def select_cells (element : Node) (tag : String) : List String :=
  (selectSub (hasTag tag) element).map cell_content

/-- Model of `Table::new` in `src/table.rs`: build the header map from the
`th` cells of the first `tr` (if any), drop that row from the data exactly
when the map is nonempty, and collect each remaining row's `td` cell
contents. -/
def Table.new (element : Node) : Table :=
  let rows := selectSub (hasTag "tr") element
  let headers : Headers :=
    match rows.head? with
    | none => []
    | some tr =>
        ((selectSub (hasTag "th") tr).enum).foldl
          (fun m iv => Headers.insert m (cell_content iv.2) iv.1) []
  let dataRows := if headers.isEmpty then rows else rows.tail
  { headers := headers, data := dataRows.map (fun tr => select_cells tr "td") }

/-- Model of `Table::find_first` in `src/table.rs`, on the parsed document:
the first `table` element in document order, if any. -/
def Table.find_first (doc : Node) : Option Table :=
  ((selectAll (hasTag "table") doc).head?).map Table.new

/-- Model of `Table::find_by_id` in `src/table.rs` on the parsed document,
for ids (such as the `groupMember` id the program uses) that form a valid
`table#id` selector: the first `table` element whose `id` attribute equals
`id`. -/
def Table.find_by_id (doc : Node) (id : String) : Option Table :=
  ((selectAll (fun n => hasTag "table" n && n.attr? "id" == some id) doc).head?).map
    Table.new

/-- Model of `contains_str` in `src/table.rs`. -/
def contains_str (slice : List String) (item : String) : Bool :=
  slice.any (fun s => s == item)

/-- Model of `Table::find_by_headers` in `src/table.rs` on the parsed
document. -/
def Table.find_by_headers (doc : Node) (headers : List String) : Option Table :=
  if headers.isEmpty then Table.find_first doc
  else
    ((selectAll (hasTag "table") doc).find? (fun t =>
      match (selectSub (hasTag "tr") t).head? with
      | none => false
      | some tr =>
          let cells := select_cells tr "th"
          headers.all (fun h => contains_str cells h))).map Table.new

/-- Model of the `Row` view of `src/table.rs`: the table's header map
together with one row's cells. -/
structure Row where
  headers : Headers
  cells : List String
  deriving DecidableEq, Repr

/-- Model of `Row::get` in `src/table.rs`: look the header up in the map,
then index into the cells. -/
def Row.get (r : Row) (header : String) : Option String :=
  (Headers.get? r.headers header).bind (fun i => r.cells.get? i)

/-!
Model of the external HTML fragment parser (`Html::parse_fragment`) for the
member mapper's inner re-parse steps, which parse the string content of a
table cell. It is a straightforward recursive-descent parser for well-formed
markup (balanced tags, quoted attributes, character entities); the
error-recovery quirks of a full HTML5 parser are outside the model.
-/

/-- Characters allowed in a tag name. -/
def isNameChar (c : Char) : Bool :=
  c.isAlphanum || c = '-' || c = '_'

/-- Decode the basic character entities the serializer produces. -/
def decodeEntities : Nat → List Char → List Char
  | 0, cs => cs
  | _ + 1, [] => []
  | fuel + 1, '&' :: rest =>
      if "amp;".toList.isPrefixOf rest then '&' :: decodeEntities fuel (rest.drop 4)
      else if "lt;".toList.isPrefixOf rest then '<' :: decodeEntities fuel (rest.drop 3)
      else if "gt;".toList.isPrefixOf rest then '>' :: decodeEntities fuel (rest.drop 3)
      else if "quot;".toList.isPrefixOf rest then '"' :: decodeEntities fuel (rest.drop 5)
      else if "#39;".toList.isPrefixOf rest then '\'' :: decodeEntities fuel (rest.drop 4)
      else '&' :: decodeEntities fuel rest
  | fuel + 1, c :: rest => c :: decodeEntities fuel rest

/-- Parse the attribute list of a start tag, up to and including the closing
angle bracket; also reports whether the tag was self-closing. -/
def parseAttrs : Nat → List Char → (List (String × String) × Bool × List Char)
  | 0, cs => ([], false, cs)
  | fuel + 1, cs0 =>
      let cs := cs0.dropWhile Char.isWhitespace
      match cs with
      | [] => ([], false, [])
      | '>' :: rest => ([], false, rest)
      | '/' :: rest => ([], true, (rest.dropWhile (fun c => c ≠ '>')).drop 1)
      | _ =>
          let nameCs := cs.takeWhile
            (fun c => !(c.isWhitespace || c = '=' || c = '>' || c = '/'))
          let rest1 := cs.dropWhile
            (fun c => !(c.isWhitespace || c = '=' || c = '>' || c = '/'))
          if nameCs.isEmpty then parseAttrs fuel (cs.drop 1)
          else
            let name := String.mk (nameCs.map Char.toLower)
            let rest2 := rest1.dropWhile Char.isWhitespace
            match rest2 with
            | '=' :: rest3 =>
                let rest4 := rest3.dropWhile Char.isWhitespace
                match rest4 with
                | '"' :: rest5 =>
                    let v := rest5.takeWhile (fun c => c ≠ '"')
                    let rest6 := (rest5.dropWhile (fun c => c ≠ '"')).drop 1
                    let (attrs, b, r) := parseAttrs fuel rest6
                    ((name, String.mk (decodeEntities (v.length + 1) v)) :: attrs, b, r)
                | '\'' :: rest5 =>
                    let v := rest5.takeWhile (fun c => c ≠ '\'')
                    let rest6 := (rest5.dropWhile (fun c => c ≠ '\'')).drop 1
                    let (attrs, b, r) := parseAttrs fuel rest6
                    ((name, String.mk (decodeEntities (v.length + 1) v)) :: attrs, b, r)
                | _ =>
                    let v := rest4.takeWhile (fun c => !(c.isWhitespace || c = '>'))
                    let rest5 := rest4.dropWhile (fun c => !(c.isWhitespace || c = '>'))
                    let (attrs, b, r) := parseAttrs fuel rest5
                    ((name, String.mk (decodeEntities (v.length + 1) v)) :: attrs, b, r)
            | _ =>
                let (attrs, b, r) := parseAttrs fuel rest2
                ((name, "") :: attrs, b, r)

/-- Consume a closing tag at the head of the input, when present. -/
def skipCloseTag (cs : List Char) : List Char :=
  match cs with
  | '<' :: '/' :: rest => (rest.dropWhile (fun c => c ≠ '>')).drop 1
  | _ => cs

/-- Parse a sequence of sibling nodes, stopping at a closing tag (which is
left for the caller) or at the end of input. -/
def parseNodesAux : Nat → List Char → (List Node × List Char)
  | 0, cs => ([], cs)
  | fuel + 1, cs =>
      match cs with
      | [] => ([], [])
      | '<' :: '/' :: rest => ([], '<' :: '/' :: rest)
      | '<' :: rest =>
          let nameCs := rest.takeWhile isNameChar
          let rest1 := rest.dropWhile isNameChar
          if nameCs.isEmpty then
            let (ns, rest2) := parseNodesAux fuel rest
            (Node.text "<" :: ns, rest2)
          else
            let tag := String.mk (nameCs.map Char.toLower)
            let (attrs, selfC, rest2) := parseAttrs fuel rest1
            if selfC || isVoidTag tag then
              let (ns, rest3) := parseNodesAux fuel rest2
              (Node.elem tag attrs [] :: ns, rest3)
            else
              let (children, rest3) := parseNodesAux fuel rest2
              let rest4 := skipCloseTag rest3
              let (ns, rest5) := parseNodesAux fuel rest4
              (Node.elem tag attrs children :: ns, rest5)
      | c :: rest =>
          let txt := (c :: rest).takeWhile (fun ch => ch ≠ '<')
          let rest1 := (c :: rest).dropWhile (fun ch => ch ≠ '<')
          let (ns, rest2) := parseNodesAux fuel rest1
          (Node.text (String.mk (decodeEntities (txt.length + 1) txt)) :: ns, rest2)

/-- Parse an HTML fragment string into its top-level nodes; models
Rust `Html::parse_fragment` on well-formed markup. -/
def parseFragment (s : String) : List Node :=
  (parseNodesAux (s.length + 2) s.toList).1

/-- First element with the given tag in a parsed fragment, in document
order; models `fragment.select(selector).next()` for a tag selector. -/
def firstTagInFragment (tag : String) (ns : List Node) : Option Node :=
  (selectAllList (hasTag tag) ns).head?

/-- Re-parse a cell string as an HTML fragment, select the first `span` and
take its trimmed inner HTML — the repeated step of `Member::from_html` in
`src/qqtable.rs` (lines 123-131 and 135-153). -/
def spanContent (s : String) : Option String :=
  (firstTagInFragment "span" (parseFragment s)).map (fun n => trimString (innerHtml n))

/-!
Embedding of `src/qqtable.rs`: the `Member` record, the `Gender`
enumeration and `Member::from_html`.
-/

/-- Outcome of running a fallible piece of the program: success, a
recoverable error (Rust `Result::Err`), or a process abort (a Rust
panic, which is not a recoverable error). -/
inductive RunResult (α : Type) where
  | ok (a : α) : RunResult α
  | err (msg : String) : RunResult α
  | fatal (msg : String) : RunResult α
  deriving DecidableEq, Repr

/-- Sequencing of fallible steps: errors and aborts cut the rest short. -/
def RunResult.bind {α β : Type} : RunResult α → (α → RunResult β) → RunResult β
  | .ok a, f => f a
  | .err m, _ => .err m
  | .fatal m, _ => .fatal m

instance : Monad RunResult where
  pure := RunResult.ok
  bind := RunResult.bind

/-- The `Gender` enumeration of `src/qqtable.rs`. -/
inductive Gender where
  | Male : Gender
  | Female : Gender
  | Unknown : Gender
  deriving DecidableEq, Repr

/-- Model of the `Display` implementation for `Gender`
(`src/qqtable.rs` lines 28-40). -/
def Gender.display : Gender → String
  | .Male => "男"
  | .Female => "女"
  | .Unknown => "未知"

/-- The gender match of `Member::from_html` (`src/qqtable.rs` lines
159-164): three recognized literals, any other value is a process abort. -/
def parseGender (s : String) : RunResult Gender :=
  if s = "男" then .ok .Male
  else if s = "女" then .ok .Female
  else if s = "未知" then .ok .Unknown
  else .fatal "Unrecognized Gender"

/-- The `Member` record of `src/qqtable.rs`. -/
structure Member where
  qq_name : String
  group_name : String
  qq_number : String
  gender : Gender
  qq_age : String
  joined_date : String
  last_spoken_date : String
  deriving DecidableEq, Repr

/-- Model of `get_header` in `src/qqtable.rs`: positional cell access with
a MissingField-style error naming the expected header and row index. -/
def get_header (cell : List String) (header : String) (row_index : Nat)
    (cell_index : Nat) : RunResult String :=
  match cell.get? cell_index with
  | some s => .ok s
  | none => .err ("Failed to get value for header `" ++ header ++ "`, at row `"
      ++ toString row_index ++ "`")

/-- The display-name extraction of `Member::from_html` (cell index 2):
re-parse the cell and take the first span's trimmed content. -/
def qqNameOfCell (i : Nat) (name_raw_html : String) : RunResult String :=
  match spanContent name_raw_html with
  | none => .err ("Failed to find `成员` txt for elem " ++ toString i)
  | some s => .ok s

/-- The group-nickname extraction of `Member::from_html` (cell index 3):
re-parse the cell and take the first span's trimmed content; if that still
starts with an open angle bracket, do the re-parse-and-select step once
more. -/
def groupNameOfCell (i : Nat) (group_name_txt : String) : RunResult String :=
  match spanContent group_name_txt with
  | none => .err ("Failed to find `群昵称` for elem " ++ toString i)
  | some group_name =>
      if startsWithChar group_name '<' then
        match spanContent group_name with
        | none => .err ("Failed to find `群昵称` for elem " ++ toString i)
        | some s => .ok s
      else .ok group_name

/-- Conversion of one data row (0-based index `i`, used in error messages)
into a `Member`, following the field order of the struct literal in
`Member::from_html` (`src/qqtable.rs` lines 120-168). -/
def memberOfRow (i : Nat) (cells : List String) : RunResult Member := do
  let name_raw_html ← get_header cells "成员" i 2
  let qq_name ← qqNameOfCell i name_raw_html
  let group_name_txt ← get_header cells "群昵称" i 3
  let group_name ← groupNameOfCell i group_name_txt
  let qq_number ← get_header cells "QQ号" i 4
  let gender_s ← get_header cells "性别" i 5
  let gender ← parseGender gender_s
  let qq_age ← get_header cells "Q龄" i 6
  let joined_date ← get_header cells "入群时间" i 7
  let last_spoken_date ← get_header cells "最后发言" i 8
  pure { qq_name := qq_name, group_name := group_name, qq_number := qq_number,
         gender := gender, qq_age := qq_age, joined_date := joined_date,
         last_spoken_date := last_spoken_date }

/-- Row-by-row conversion starting at row index `i`; models
`table.into_iter().enumerate().map(..).collect::<Result<Vec<_>>>()`, which
stops at the first failing row. -/
def collectMembers : Nat → List (List String) → RunResult (List Member)
  | _, [] => .ok []
  | i, row :: rest =>
      match memberOfRow i row with
      | .ok m =>
          match collectMembers (i + 1) rest with
          | .ok ms => .ok (m :: ms)
          | .err e => .err e
          | .fatal e => .fatal e
      | .err e => .err e
      | .fatal e => .fatal e

/-- Model of `Member::from_html` (`src/qqtable.rs` lines 63-174) on the
parsed document: locate the table with id `groupMember`, convert every data
row in order, wrapping row errors with context. -/
def Member.from_html (doc : Node) : RunResult (List Member) :=
  match Table.find_by_id doc "groupMember" with
  | none => .err "Failed to extract table"
  | some table =>
      match collectMembers 0 table.data with
      | .ok ms => .ok ms
      | .err e => .err ("Failed to parse members: " ++ e)
      | .fatal e => .fatal e

/-!
Embedding of the conversion driver `src/main.rs`: the CSV rows written by
`convert_html` and the directory-walk filtering of `main`.
-/

/-- The fixed localized CSV header row written by `convert_html`
(`src/main.rs` lines 75-84). -/
def csvHeader : List String :=
  ["成员", "群昵称", "QQ号", "性别", "Q龄", "入群时间"]

/-- The CSV record written for one member (`src/main.rs` lines 86-97): the
display name appears again in the third column, where the QQ-number column
is expected, and the last-spoken date is not written. -/
def memberRecord (member : Member) : List String :=
  [member.qq_name, member.group_name, member.qq_name,
   member.gender.display, member.qq_age, member.joined_date]

/-- Model of `convert_html` (`src/main.rs` lines 52-101) on the parsed
document: the `.csv` output file is created only after `Member::from_html`
succeeds, so on failure no rows are produced and no file is touched; on
success its rows are the header row followed by one record per member. -/
def convert_html (doc : Node) : RunResult (List (List String)) :=
  match Member.from_html doc with
  | .ok table => .ok (csvHeader :: table.map memberRecord)
  | .err e => .err ("Error while parsing file: " ++ e)
  | .fatal e => .fatal e

/-- Helper for `fileExtension`: walk the reversed file name, collecting
characters until the last dot of the original name. -/
def extAuxRev : List Char → List Char → Option (List Char)
  | _, [] => none
  | acc, c :: rest =>
      if c = '.' then (if rest.isEmpty then none else some acc)
      else extAuxRev (c :: acc) rest

/-- Model of Rust `Path::extension` on a file name: the part after the last
dot, or none when there is no dot or the only dot is the leading one. -/
def fileExtension (name : String) : Option String :=
  (extAuxRev [] name.toList.reverse).map String.mk

/-- One entry produced by the recursive directory walk: either a path with
its file-or-directory status, or a traversal error. -/
inductive DirEntry where
  | ok (fileName : String) (isFile : Bool) : DirEntry
  | err (e : String) : DirEntry
  deriving DecidableEq, Repr

/-- What the walk loop of `main` does with one entry. -/
inductive EntryAction where
  | skipped : EntryAction
  | processed : EntryAction
  | aborted : EntryAction
  deriving DecidableEq, Repr

/-- Model of the filtering in `main` (`src/main.rs` lines 37-47): traversal
errors are dropped by `filter_map(|e| e.ok())`; for a file, the filter
evaluates `p.extension().unwrap() == "html"`, whose `unwrap` aborts the
process when the file name has no extension. -/
def entryAction : DirEntry → EntryAction
  | .err _ => .skipped
  | .ok name isFile =>
      if isFile then
        match fileExtension name with
        | none => .aborted
        | some e => if e = "html" then .processed else .skipped
      else .skipped

/-!
Specification-side definitions: formulations taken from the wording of the
claims, to be compared with the embedded code above.
-/

mutual

/-- Modelled from the spec: the plain rendered text of a node (DOM text
content) — the concatenation of its descendant text nodes. The spec's
`find_by_headers` sentence compares header cells "by cell text content";
this definition captures that wording, in contrast to the serialized
inner HTML the code compares. -/
def textContent : Node → String
  | .text s => s
  | .elem _ _ children => textContentList children

/-- Concatenated text content of a forest of nodes. -/
def textContentList : List Node → String
  | [] => ""
  | n :: ns => textContent n ++ textContentList ns

end

/-- Index of the last occurrence of `s` in `l`, if any: the position a
header is mapped to when duplicate header text overwrites the earlier
index. -/
def lastIndexOf? (l : List String) (s : String) : Option Nat :=
  ((l.enum.filter (fun p => p.2 == s)).map Prod.fst).getLast?

/-- The contents of the `th` cells of a table element's first `tr`
(empty when the table has no `tr` at all). -/
def firstRowHeaderCells (t : Node) : List String :=
  match (selectSub (hasTag "tr") t).head? with
  | none => []
  | some tr => select_cells tr "th"

/-!
Concrete fixtures, used by the witness and counterexample theorems.
-/

/-- Fixture: a `td` cell holding plain text. -/
def mkTd (s : String) : Node := .elem "td" [] [.text s]

/-- Fixture: a `td` cell holding arbitrary child nodes. -/
def mkTdN (ns : List Node) : Node := .elem "td" [] ns

/-- Fixture: a `th` cell holding plain text. -/
def mkTh (s : String) : Node := .elem "th" [] [.text s]

/-- Fixture: one member row shaped like the example row documented in
`src/qqtable.rs` (ten `td` cells, display name and group nickname wrapped
in spans). -/
def memberTr : Node := .elem "tr" [("class", "mb")] [
  mkTd "", mkTd "1",
  mkTdN [.elem "a" [("class", "group-master-a")] [], .elem "img" [("id", "useIcon1")] [],
         .elem "span" [] [.text " 秘书组 "]],
  mkTdN [.elem "span" [("class", "white")] [.text " 组长 "]],
  mkTd "1452313818", mkTd "男", mkTd "11年", mkTd "2018/02/26", mkTd "2021/11/01", mkTd ""]

/-- Fixture: the cell list of `memberTr`, as extracted by the table layer. -/
def memberCells : List String := select_cells memberTr "td"

/-- Fixture: a document holding a `groupMember` table with one member
row. -/
def memberDoc : Node :=
  .elem "html" [] [.elem "table" [("id", "groupMember")] [memberTr]]

/-- Fixture: the member extracted from `memberDoc`. -/
def memberW : Member :=
  { qq_name := "秘书组", group_name := "组长", qq_number := "1452313818",
    gender := .Male, qq_age := "11年", joined_date := "2018/02/26",
    last_spoken_date := "2021/11/01" }

/-- Fixture: a document with no `groupMember` table. -/
def noTableDoc : Node :=
  .elem "html" [] [.elem "p" [] [.text "nothing here"], .elem "table" [] []]

/-- Fixture: a header row with a duplicated header. -/
def hdrRow : Node := .elem "tr" [] [mkTh "Name", mkTh "Age", mkTh "Name"]

/-- Fixture: a two-cell data row. -/
def dataRow : Node := .elem "tr" [] [mkTd "John", mkTd "20"]

/-- Fixture: a row with no `td` cell at all. -/
def emptyRow : Node := .elem "tr" [] []

/-- Fixture: a table whose first row is a header row with a duplicated
header, one data row, and one row with no `td` cell. -/
def hdrTable : Node := .elem "table" [] [hdrRow, dataRow, emptyRow]

/-- Fixture: a document holding an empty table followed by `hdrTable`. -/
def twoTablesDoc : Node := .elem "html" [] [.elem "table" [] [], hdrTable]

/-- Fixture: a document whose only table has a single `th` whose text
content is `Name` but whose inner HTML is markup (`<b>Name</b>`). -/
def markupHeaderDoc : Node :=
  .elem "html" [] [.elem "table" [] [.elem "tr" [] [
    .elem "th" [] [.elem "b" [] [.text "Name"]]]]]

/-- Fixture: the table element inside `markupHeaderDoc`. -/
def markupHeaderTable : Node :=
  .elem "table" [] [.elem "tr" [] [.elem "th" [] [.elem "b" [] [.text "Name"]]]]

/-!
Helper lemmas shared by the claim theorems.
-/

/-- Sequencing succeeds exactly when both steps do. -/
theorem RunResult.bind_eq_ok {α β : Type} {x : RunResult α} {f : α → RunResult β}
    {b : β} : RunResult.bind x f = .ok b ↔ ∃ a, x = .ok a ∧ f a = .ok b := by
  cases x <;> simp [RunResult.bind]

/-- Monadic bind on `RunResult` is `RunResult.bind`. -/
theorem RunResult.bind_def {α β : Type} (x : RunResult α) (f : α → RunResult β) :
    x >>= f = RunResult.bind x f := rfl

/-- Monadic pure on `RunResult` is `RunResult.ok`. -/
theorem RunResult.pure_def {α : Type} (a : α) : (pure a : RunResult α) = .ok a := rfl

/-- Positional access succeeds exactly when the index is in range. -/
theorem get_header_eq_ok {cells : List String} {header : String} {i j : Nat}
    {s : String} : get_header cells header i j = .ok s ↔ cells.get? j = some s := by
  unfold get_header
  cases h : cells.get? j <;> simp

/-- Decomposition of a successful row conversion: each positional cell was
present and each field-level extraction succeeded on it. -/
theorem memberOfRow_ok_decomp {i : Nat} {cells : List String} {m : Member}
    (h : memberOfRow i cells = .ok m) :
    ∃ c2 c3 c5, cells.get? 2 = some c2 ∧ qqNameOfCell i c2 = .ok m.qq_name ∧
      cells.get? 3 = some c3 ∧ groupNameOfCell i c3 = .ok m.group_name ∧
      cells.get? 5 = some c5 ∧ parseGender c5 = .ok m.gender := by
  simp only [memberOfRow, RunResult.bind_def, RunResult.pure_def,
    RunResult.bind_eq_ok, get_header_eq_ok] at h
  obtain ⟨c2, h2, n, hn, c3, h3, g, hg, c4, h4, c5, h5, gd, hgd, c6, h6, c7, h7,
    c8, h8, hm⟩ := h
  cases hm
  exact ⟨c2, c3, c5, h2, hn, h3, hg, h5, hgd⟩

/-- Looking a key up in a one-more-binding map. -/
theorem Headers.get?_cons (k1 : String) (v1 : Nat) (m : Headers) (s : String) :
    Headers.get? ((k1, v1) :: m) s =
      if k1 = s then some v1 else Headers.get? m s := by
  simp only [Headers.get?, List.find?]
  by_cases h : k1 = s
  · subst h; simp
  · have hb : (k1 == s) = false := by simp [h]
    simp [hb, h]

/-- Inserting never gives the empty map. -/
theorem Headers.insert_ne_nil (m : Headers) (k : String) (v : Nat) :
    Headers.insert m k v ≠ [] := by
  cases m with
  | nil => simp [Headers.insert]
  | cons p rest =>
      obtain ⟨k1, v1⟩ := p
      simp only [Headers.insert]
      split <;> simp

/-- Lookup after insert: the inserted key wins, other keys are
unchanged. -/
theorem Headers.get?_insert (m : Headers) (k : String) (v : Nat) (s : String) :
    Headers.get? (Headers.insert m k v) s =
      if s = k then some v else Headers.get? m s := by
  induction m with
  | nil =>
      show Headers.get? [(k, v)] s = _
      rw [Headers.get?_cons]
      by_cases h : k = s
      · simp only [if_pos h, if_pos h.symm]
      · simp only [if_neg h, if_neg (fun hh : s = k => h hh.symm)]
  | cons p rest ih =>
      obtain ⟨k1, v1⟩ := p
      simp only [Headers.insert]
      by_cases h1 : k1 = k
      · rw [if_pos h1]
        subst h1
        rw [Headers.get?_cons, Headers.get?_cons]
        by_cases h2 : k1 = s
        · simp only [if_pos h2, if_pos h2.symm]
        · simp only [if_neg h2, if_neg (fun hh : s = k1 => h2 hh.symm)]
      · rw [if_neg h1, Headers.get?_cons, ih, Headers.get?_cons]
        by_cases h2 : k1 = s
        · have hs : ¬ s = k := fun hh => h1 (h2.trans hh)
          simp only [if_pos h2, if_neg hs]
        · by_cases h3 : s = k
          · simp only [if_neg h2, if_pos h3]
          · simp only [if_neg h2, if_neg h3]

/-- Folding inserts of indexed keys over a map: the last binding of a key
wins, keys never bound fall back to the initial map. -/
theorem Headers.get?_foldl_insert (L : List (Nat × String)) (m0 : Headers)
    (s : String) :
    Headers.get? (L.foldl (fun m iv => Headers.insert m iv.2 iv.1) m0) s =
      (((L.filter (fun iv => iv.2 == s)).map Prod.fst).getLast?).elim
        (Headers.get? m0 s) some := by
  induction L generalizing m0 with
  | nil => simp
  | cons iv rest ih =>
      obtain ⟨i, k⟩ := iv
      rw [List.foldl_cons, ih, List.filter_cons]
      by_cases hk : k = s
      · have hb : ((i, k).2 == s) = true := by simp [hk]
        simp only [hb, if_true]
        simp only [List.map_cons]
        cases hfr : (rest.filter (fun iv => iv.2 == s)).map Prod.fst with
        | nil =>
            have hsk : s = k := hk.symm
            simp [Headers.get?_insert, hsk]
        | cons b l2 =>
            simp only [List.getLast?_cons_cons]
            cases hgl : (b :: l2).getLast? with
            | none => exact absurd (List.getLast?_eq_none_iff.mp hgl) (by simp)
            | some x => simp
      · have hb : ((i, k).2 == s) = false := by simp [hk]
        simp only [hb, Bool.false_eq_true, if_false]
        rw [Headers.get?_insert, if_neg (fun hh : s = k => hk hh.symm)]

/-- The header-building fold of `Table::new`, read through lookup: a header
text is mapped to the index of its last occurrence among the `th` cells. -/
theorem buildHeaders_get? (ths : List Node) (s : String) :
    Headers.get? ((ths.enum).foldl
        (fun m iv => Headers.insert m (cell_content iv.2) iv.1) []) s =
      lastIndexOf? (ths.map cell_content) s := by
  have hpm : Prod.map (@id Nat) cell_content =
      (fun iv : Nat × Node => (iv.1, cell_content iv.2)) := by
    funext iv; cases iv; rfl
  have hmap : (ths.map cell_content).enum =
      ths.enum.map (fun iv : Nat × Node => (iv.1, cell_content iv.2)) := by
    rw [List.enum_map, hpm]
  have hfold : (ths.enum).foldl
      (fun m iv => Headers.insert m (cell_content iv.2) iv.1) [] =
      ((ths.map cell_content).enum).foldl
        (fun m iv => Headers.insert m iv.2 iv.1) [] := by
    rw [hmap, List.foldl_map]
  rw [hfold, Headers.get?_foldl_insert]
  unfold lastIndexOf?
  have hnone : Headers.get? ([] : Headers) s = none := rfl
  rw [hnone]
  cases (((ths.map cell_content).enum.filter
    (fun iv => iv.2 == s)).map Prod.fst).getLast? <;> rfl

/-- Folding inserts over a nonempty list (or onto a nonempty map) gives a
nonempty map. -/
theorem foldl_insert_cc_ne_nil (L : List (Nat × Node)) (m0 : Headers)
    (h : m0 ≠ [] ∨ L ≠ []) :
    L.foldl (fun m iv => Headers.insert m (cell_content iv.2) iv.1) m0 ≠ [] := by
  induction L generalizing m0 with
  | nil =>
      cases h with
      | inl h => simpa using h
      | inr h => exact absurd rfl h
  | cons iv rest ih =>
      rw [List.foldl_cons]
      exact ih _ (Or.inl (Headers.insert_ne_nil _ _ _))

/-- The header map built from a nonempty `th` cell list is nonempty. -/
theorem buildHeaders_ne_nil (ths : List Node) (h : ths ≠ []) :
    (ths.enum).foldl (fun m iv => Headers.insert m (cell_content iv.2) iv.1) []
      ≠ [] := by
  cases ths with
  | nil => exact absurd rfl h
  | cons a rest =>
      exact foldl_insert_cc_ne_nil _ _ (Or.inr (by simp [List.enum]))

/-- Unfolding of `Table.new` when the table has at least one row. -/
theorem Table.new_cons (element tr : Node) (rest : List Node)
    (h : selectSub (hasTag "tr") element = tr :: rest) :
    Table.new element =
      { headers := ((selectSub (hasTag "th") tr).enum).foldl
          (fun m iv => Headers.insert m (cell_content iv.2) iv.1) [],
        data := (if (((selectSub (hasTag "th") tr).enum).foldl
              (fun m iv => Headers.insert m (cell_content iv.2) iv.1)
              []).isEmpty
          then tr :: rest else rest).map (fun r => select_cells r "td") } := by
  unfold Table.new
  rw [h]
  rfl

/-- Unfolding of `Table.new` when the table has no row at all. -/
theorem Table.new_nil (element : Node)
    (h : selectSub (hasTag "tr") element = []) :
    Table.new element = { headers := [], data := [] } := by
  unfold Table.new
  rw [h]
  rfl

/-- Finding by pointwise-equal predicates gives the same result. -/
theorem find?_congr {α : Type} {p q : α → Bool} (l : List α)
    (h : ∀ a, p a = q a) : l.find? p = l.find? q := by
  induction l with
  | nil => rfl
  | cons a l ih =>
      rw [List.find?, List.find?, h a]
      cases q a <;> simp [ih]

/-- A successful batch conversion has exactly one member per row, in row
order, each obtained by a successful row conversion. -/
theorem collectMembers_ok {k : Nat} {rows : List (List String)}
    {ms : List Member} (h : collectMembers k rows = .ok ms) :
    ms.length = rows.length ∧
    ∀ j row, rows.get? j = some row →
      ∃ m, ms.get? j = some m ∧ memberOfRow (k + j) row = .ok m := by
  induction rows generalizing k ms with
  | nil =>
      simp only [collectMembers] at h
      cases h
      simp
  | cons row rest ih =>
      simp only [collectMembers] at h
      cases hm : memberOfRow k row with
      | ok m =>
          rw [hm] at h
          cases hrest : collectMembers (k + 1) rest with
          | ok ms2 =>
              rw [hrest] at h
              cases h
              obtain ⟨hl, hcells⟩ := ih hrest
              refine ⟨by simp [hl], ?_⟩
              intro j r hr
              cases j with
              | zero =>
                  simp only [List.get?] at hr
                  cases hr
                  exact ⟨m, rfl, by simpa using hm⟩
              | succ j2 =>
                  simp only [List.get?] at hr ⊢
                  obtain ⟨m2, hm2, hconv⟩ := hcells j2 r hr
                  refine ⟨m2, hm2, ?_⟩
                  have harith : k + (j2 + 1) = (k + 1) + j2 := by omega
                  rw [harith]
                  exact hconv
          | err e => rw [hrest] at h; cases h
          | fatal e => rw [hrest] at h; cases h
      | err e => rw [hm] at h; cases h
      | fatal e => rw [hm] at h; cases h

end QQExtract

namespace QQExtract

/-!
Claim theorems.
-/

/-- Claim C8: for every html document, `find_by_headers` called with an
empty header list returns exactly the same result as `find_first`. -/
theorem find_by_headers_empty_eq_find_first (doc : Node) :
    Table.find_by_headers doc [] = Table.find_first doc := rfl

/-- Claim C9: `Row.get` returns the cell at the index given by the header
map, and returns absent exactly when the header is unknown or the mapped
index is at or beyond the row's cell count; being a total function into
`Option`, it fails in no other way. -/
theorem row_get_spec (r : Row) (h : String) :
    (∀ v, r.get h = some v ↔
      ∃ i, Headers.get? r.headers h = some i ∧ r.cells.get? i = some v) ∧
    (r.get h = none ↔ Headers.get? r.headers h = none ∨
      ∃ i, Headers.get? r.headers h = some i ∧ r.cells.length ≤ i) := by
  unfold Row.get
  cases hh : Headers.get? r.headers h with
  | none => simp
  | some i =>
      constructor
      · intro v
        constructor
        · intro hv; exact ⟨i, rfl, hv⟩
        · rintro ⟨i2, hi2, hv⟩; cases hi2; exact hv
      · simp [List.get?_eq_none]

/-- Witness to claim C9 at a concrete row: the header map of `hdrTable`
sends `Age` to index 1 and the data row has a cell there; a short row makes
lookup absent. -/
theorem row_get_spec_witness :
    Row.get ⟨(Table.new hdrTable).headers, ["John", "20"]⟩ "Age" = some "20" ∧
    Row.get ⟨(Table.new hdrTable).headers, ["John"]⟩ "Age" = none := by
  constructor
  · exact ((row_get_spec ⟨(Table.new hdrTable).headers, ["John", "20"]⟩ "Age").1
      "20").mpr ⟨1, by decide, by decide⟩
  · exact (row_get_spec ⟨(Table.new hdrTable).headers, ["John"]⟩ "Age").2.mpr
      (Or.inr ⟨1, by decide, by decide⟩)

/-- Claim C3: the gender cell at index 5 maps by exact string match —
`男` to Male, `女` to Female, `未知` to Unknown — and any other literal is a
process abort, never a recoverable error. -/
theorem gender_cell_mapping (s : String) (i : Nat) (cells : List String)
    (m : Member) :
    (parseGender "男" = .ok .Male ∧ parseGender "女" = .ok .Female ∧
      parseGender "未知" = .ok .Unknown) ∧
    (s ≠ "男" → s ≠ "女" → s ≠ "未知" →
      parseGender s = .fatal "Unrecognized Gender") ∧
    (∀ e, parseGender s ≠ .err e) ∧
    (memberOfRow i cells = .ok m →
      ∃ g, cells.get? 5 = some g ∧ parseGender g = .ok m.gender) := by
  refine ⟨⟨by decide, by decide, by decide⟩, ?_, ?_, ?_⟩
  · intro h1 h2 h3
    simp [parseGender, h1, h2, h3]
  · intro e
    unfold parseGender
    split <;> try simp
    split <;> try simp
    split <;> simp
  · intro h
    obtain ⟨_, _, c5, _, _, _, _, h5, hg⟩ := memberOfRow_ok_decomp h
    exact ⟨c5, h5, hg⟩

/-- Witness to claim C3: the fixture row maps its `男` cell to Male, and an
unrecognized literal aborts. -/
theorem gender_cell_mapping_witness :
    parseGender "男" = .ok .Male ∧
    parseGender "boy" = .fatal "Unrecognized Gender" ∧
    (∃ g, memberCells.get? 5 = some g ∧ parseGender g = .ok memberW.gender) := by
  refine ⟨(gender_cell_mapping "" 0 [] memberW).1.1, ?_, ?_⟩
  · exact (gender_cell_mapping "boy" 0 [] memberW).2.1 (by decide) (by decide)
      (by decide)
  · exact (gender_cell_mapping "" 0 memberCells memberW).2.2.2 (by decide)

/-- Claim C10: every Gender displays as one of the three tokens, and each
recognized token round-trips through recognition and display. -/
theorem gender_display_round_trip :
    (∀ g : Gender, g.display = "男" ∨ g.display = "女" ∨ g.display = "未知") ∧
    (∀ t, t = "男" ∨ t = "女" ∨ t = "未知" →
      ∃ g, parseGender t = .ok g ∧ g.display = t) := by
  constructor
  · intro g; cases g <;> simp [Gender.display]
  · rintro t (rfl | rfl | rfl)
    · exact ⟨.Male, by decide, rfl⟩
    · exact ⟨.Female, by decide, rfl⟩
    · exact ⟨.Unknown, by decide, rfl⟩

/-- Witness to claim C10 at the token `未知`. -/
theorem gender_display_round_trip_witness :
    ∃ g, parseGender "未知" = .ok g ∧ g.display = "未知" :=
  gender_display_round_trip.2 "未知" (Or.inr (Or.inr rfl))

/-- Claim C7: the group-nickname cell (index 3) is re-parsed and the first
span's trimmed inner content taken; when that result starts with an open
angle bracket the re-parse-and-select-span step runs exactly once more,
otherwise the first-level result is used; a NotFound-style error arises
when no span is found at either level. -/
theorem group_name_unwrap (i : Nat) (cell : String) :
    (spanContent cell = none →
      groupNameOfCell i cell =
        .err ("Failed to find `群昵称` for elem " ++ toString i)) ∧
    (∀ g, spanContent cell = some g → startsWithChar g '<' = false →
      groupNameOfCell i cell = .ok g) ∧
    (∀ g g2, spanContent cell = some g → startsWithChar g '<' = true →
      spanContent g = some g2 → groupNameOfCell i cell = .ok g2) ∧
    (∀ g, spanContent cell = some g → startsWithChar g '<' = true →
      spanContent g = none →
      groupNameOfCell i cell =
        .err ("Failed to find `群昵称` for elem " ++ toString i)) ∧
    (∀ cells m, memberOfRow i cells = .ok m →
      ∃ c3, cells.get? 3 = some c3 ∧ groupNameOfCell i c3 = .ok m.group_name) := by
  refine ⟨?_, ?_, ?_, ?_, ?_⟩
  · intro h; simp [groupNameOfCell, h]
  · intro g hg hs; simp [groupNameOfCell, hg, hs]
  · intro g g2 hg hs hg2; simp [groupNameOfCell, hg, hs, hg2]
  · intro g hg hs hg2; simp [groupNameOfCell, hg, hs, hg2]
  · intro cells m h
    obtain ⟨c2, c3, c5, h2, hn, h3, hgn, h5, hgd⟩ := memberOfRow_ok_decomp h
    exact ⟨c3, h3, hgn⟩

/-- Witness to claim C7: a double-nested span unwraps twice to `X`; a
single span is used directly. -/
theorem group_name_unwrap_witness :
    groupNameOfCell 0 "<span><span> X </span></span>" = .ok "X" ∧
    groupNameOfCell 0 "<span> Alice </span>" = .ok "Alice" := by
  constructor
  · exact (group_name_unwrap 0 "<span><span> X </span></span>").2.2.1
      "<span> X </span>" "X" (by decide) (by decide) (by decide)
  · exact (group_name_unwrap 0 "<span> Alice </span>").2.1 "Alice"
      (by decide) (by decide)

/-- Claim C5: the CSV output of a successful conversion is one fixed
localized six-column header row followed by one record per member in order,
the columns being display name, group nickname, display name again (where
the QQ-number column is expected), the gender's display form, tenure, and
join date; the last-spoken date is parsed but never emitted. -/
theorem convert_html_output (doc : Node) (ms : List Member) :
    (Member.from_html doc = .ok ms →
      convert_html doc = .ok (csvHeader :: ms.map memberRecord)) ∧
    csvHeader = ["成员", "群昵称", "QQ号", "性别", "Q龄", "入群时间"] ∧
    (∀ m : Member, memberRecord m =
      [m.qq_name, m.group_name, m.qq_name, m.gender.display, m.qq_age,
       m.joined_date]) ∧
    (∀ m : Member, ∀ s,
      memberRecord { m with last_spoken_date := s } = memberRecord m) := by
  refine ⟨?_, rfl, fun m => rfl, fun m s => rfl⟩
  intro h
  simp [convert_html, h]

/-- Witness to claim C5 on the fixture document: one header line and one
data line, with the display name repeated in the third column. -/
theorem convert_html_output_witness :
    convert_html memberDoc = .ok [csvHeader, memberRecord memberW] :=
  (convert_html_output memberDoc [memberW]).1 (by decide)

/-- Claim C6 counterexample: the walk does not silently skip every
non-HTML file — a regular file whose name has no extension at all hits
`extension().unwrap()` and aborts the run. -/
theorem walk_filter_counterexample :
    entryAction (.ok "README" true) = .aborted ∧
    EntryAction.aborted ≠ .skipped ∧ EntryAction.aborted ≠ .processed := by
  decide

/-- Claim C6 as amended: only files whose extension is exactly `html`
(case-sensitively) are processed; traversal errors, directories and files
with a different (but present) extension are silently skipped; a regular
file with no extension aborts the run. -/
theorem walk_filter_spec :
    (∀ name isF, entryAction (.ok name isF) = .processed ↔
      (isF = true ∧ fileExtension name = some "html")) ∧
    (∀ e, entryAction (.err e) = .skipped) ∧
    (∀ name, entryAction (.ok name false) = .skipped) ∧
    (∀ name ext, fileExtension name = some ext → ext ≠ "html" →
      entryAction (.ok name true) = .skipped) ∧
    (∀ name, fileExtension name = none →
      entryAction (.ok name true) = .aborted) := by
  refine ⟨?_, fun e => rfl, fun name => rfl, ?_, ?_⟩
  · intro name isF
    cases isF with
    | false => simp [entryAction]
    | true =>
        rcases hfe : fileExtension name with _ | ext <;> simp [entryAction, hfe]
  · intro name ext hfe hne
    simp [entryAction, hfe, hne]
  · intro name hfe
    simp [entryAction, hfe]

/-- Claim C1: table construction follows the header-row rule. When the
first `tr` has at least one `th`, each header text is mapped to the
position of its last occurrence among the `th` cells (duplicates overwrite
the earlier index) and that row is excluded from the data rows; otherwise
the header map is empty and every row, the first included, becomes a data
row; rows are kept one-for-one, a row with zero `td` cells becoming the
empty cell sequence. -/
theorem table_new_header_rule (element : Node) :
    (∀ tr rest, selectSub (hasTag "tr") element = tr :: rest →
      selectSub (hasTag "th") tr ≠ [] →
      ((∀ s, Headers.get? (Table.new element).headers s =
          lastIndexOf? ((selectSub (hasTag "th") tr).map cell_content) s) ∧
        (Table.new element).data =
          rest.map (fun r => select_cells r "td"))) ∧
    (∀ tr rest, selectSub (hasTag "tr") element = tr :: rest →
      selectSub (hasTag "th") tr = [] →
      ((Table.new element).headers = [] ∧
        (Table.new element).data =
          (tr :: rest).map (fun r => select_cells r "td"))) ∧
    (selectSub (hasTag "tr") element = [] →
      ((Table.new element).headers = [] ∧ (Table.new element).data = [])) ∧
    (∀ r, selectSub (hasTag "td") r = [] → select_cells r "td" = []) := by
  refine ⟨?_, ?_, ?_, ?_⟩
  · intro tr rest h hth
    rw [Table.new_cons element tr rest h]
    constructor
    · intro s
      exact buildHeaders_get? _ s
    · have hne := buildHeaders_ne_nil _ hth
      simp only [List.isEmpty_eq_false.mpr hne, Bool.false_eq_true, if_false]
  · intro tr rest h hth
    rw [Table.new_cons element tr rest h, hth]
    exact ⟨rfl, rfl⟩
  · intro h
    rw [Table.new_nil element h]
    exact ⟨rfl, rfl⟩
  · intro r h
    simp [select_cells, h]

/-- Witness to claim C1 on `hdrTable`: the duplicated header `Name` maps to
its last position 2, the header row is excluded from the data, the
zero-`td` row is kept as an empty sequence, and a table whose first row has
no `th` keeps every row as data with an empty header map. -/
theorem table_new_header_rule_witness :
    Headers.get? (Table.new hdrTable).headers "Name" = some 2 ∧
    Headers.get? (Table.new hdrTable).headers "Age" = some 1 ∧
    (Table.new hdrTable).data = [["John", "20"], []] ∧
    (Table.new (.elem "table" [] [dataRow])).headers = [] ∧
    (Table.new (.elem "table" [] [dataRow])).data = [["John", "20"]] := by
  have h1 := (table_new_header_rule hdrTable).1 hdrRow [dataRow, emptyRow]
    (by decide) (by decide)
  have h2 := (table_new_header_rule (.elem "table" [] [dataRow])).2.1 dataRow []
    (by decide) (by decide)
  refine ⟨?_, ?_, ?_, h2.1, ?_⟩
  · rw [h1.1 "Name"]; decide
  · rw [h1.1 "Age"]; decide
  · rw [h1.2]; decide
  · rw [h2.2]; decide

/-- Claim C2 counterexample: header comparison is not by cell text content.
The only table of `markupHeaderDoc` has a single first-row `th` whose text
content is exactly `Name`, so under text-content comparison a query for
`Name` would return it; the code compares trimmed inner HTML
(`<b>Name</b>`) and returns absent. -/
theorem find_by_headers_text_counterexample :
    Table.find_by_headers markupHeaderDoc ["Name"] = none ∧
    selectAll (hasTag "table") markupHeaderDoc = [markupHeaderTable] ∧
    ((selectSub (hasTag "tr") markupHeaderTable).head?).map
        (fun tr => (selectSub (hasTag "th") tr).map
          (fun c => trimString (textContent c))) = some ["Name"] ∧
    firstRowHeaderCells markupHeaderTable = ["<b>Name</b>"] := by
  decide

/-- Claim C2 as amended: for every non-empty header list, `find_by_headers`
returns the first table element in document order whose first row's `th`
cells — compared by trimmed inner-HTML cell content, not by text content —
form a superset of the requested header set, absent if no table qualifies;
and the match is order-insensitive (invariant under permutation of the
requested headers). -/
theorem find_by_headers_spec (doc : Node) (headers : List String) :
    (headers ≠ [] →
      Table.find_by_headers doc headers =
        ((selectAll (hasTag "table") doc).find? (fun t =>
          decide (∀ h ∈ headers, h ∈ firstRowHeaderCells t))).map Table.new) ∧
    (∀ headers2, headers.Perm headers2 →
      Table.find_by_headers doc headers = Table.find_by_headers doc headers2) := by
  have hmain : ∀ hs : List String, hs ≠ [] →
      Table.find_by_headers doc hs =
        ((selectAll (hasTag "table") doc).find? (fun t =>
          decide (∀ h ∈ hs, h ∈ firstRowHeaderCells t))).map Table.new := by
    intro hs hne
    unfold Table.find_by_headers
    rw [if_neg (by simp [List.isEmpty_iff, hne])]
    refine congrArg _ (find?_congr _ ?_)
    intro t
    cases hh : (selectSub (hasTag "tr") t).head? with
    | none =>
        obtain ⟨h0, tl, rfl⟩ : ∃ h0 tl, hs = h0 :: tl := by
          cases hs with
          | nil => exact absurd rfl hne
          | cons a b => exact ⟨a, b, rfl⟩
        have hfr : firstRowHeaderCells t = [] := by
          simp [firstRowHeaderCells, hh]
        rw [hfr]
        symm
        rw [decide_eq_false_iff_not]
        intro H
        exact (List.not_mem_nil h0) (H h0 (by simp))
    | some tr =>
        rw [Bool.eq_iff_iff]
        simp [firstRowHeaderCells, hh, List.all_eq_true, contains_str,
          List.any_eq_true, select_cells]
  constructor
  · exact hmain headers
  · intro headers2 hperm
    by_cases hne : headers = []
    · subst hne
      rw [hperm.symm.eq_nil]
    · have hne2 : headers2 ≠ [] := by
        intro h2
        rw [h2] at hperm
        exact hne hperm.eq_nil
      rw [hmain headers hne, hmain headers2 hne2]
      refine congrArg _ (find?_congr _ ?_)
      intro t
      rw [decide_eq_decide]
      constructor
      · intro H h hh2; exact H h (hperm.mem_iff.mpr hh2)
      · intro H h hh2; exact H h (hperm.mem_iff.mp hh2)

/-- Witness to claim C2 (amended) on a document with two tables: the
superset characterization at a concrete non-empty query, and
order-insensitivity between the two orders of the query. -/
theorem find_by_headers_spec_witness :
    Table.find_by_headers twoTablesDoc ["Age", "Name"] =
      ((selectAll (hasTag "table") twoTablesDoc).find? (fun t =>
        decide (∀ h ∈ ["Age", "Name"], h ∈ firstRowHeaderCells t))).map
        Table.new ∧
    Table.find_by_headers twoTablesDoc ["Age", "Name"] =
      Table.find_by_headers twoTablesDoc ["Name", "Age"] :=
  ⟨(find_by_headers_spec twoTablesDoc ["Age", "Name"]).1 (by decide),
   (find_by_headers_spec twoTablesDoc ["Age", "Name"]).2 ["Name", "Age"]
     (by decide)⟩

/-- Claim C4: member mapping is atomic — when the `groupMember` table is
missing the whole conversion fails (NotFound-style) and no CSV rows are
produced; on success there is exactly one member per data row, in original
row order; a failing row makes the whole mapping fail; and whenever the
mapping fails, `convert_html` produces no output at all. -/
theorem from_html_atomic (doc : Node) :
    (Table.find_by_id doc "groupMember" = none →
      Member.from_html doc = .err "Failed to extract table" ∧
      ∀ rows, convert_html doc ≠ .ok rows) ∧
    (∀ t, Table.find_by_id doc "groupMember" = some t →
      (∀ ms, Member.from_html doc = .ok ms →
        ms.length = t.data.length ∧
        ∀ j row, t.data.get? j = some row →
          ∃ m, ms.get? j = some m ∧ memberOfRow j row = .ok m) ∧
      (∀ j row, t.data.get? j = some row → (∀ m, memberOfRow j row ≠ .ok m) →
        ∀ ms, Member.from_html doc ≠ .ok ms)) ∧
    ((∀ ms, Member.from_html doc ≠ .ok ms) →
      ∀ rows, convert_html doc ≠ .ok rows) := by
  refine ⟨?_, ?_, ?_⟩
  · intro h
    constructor
    · simp [Member.from_html, h]
    · intro rows hcv
      simp [convert_html, Member.from_html, h] at hcv
  · intro t ht
    have hcol : ∀ ms, Member.from_html doc = .ok ms →
        collectMembers 0 t.data = .ok ms := by
      intro ms hms
      simp only [Member.from_html, ht] at hms
      cases hc : collectMembers 0 t.data with
      | ok ms2 => rw [hc] at hms; cases hms; rfl
      | err e => rw [hc] at hms; cases hms
      | fatal e => rw [hc] at hms; cases hms
    constructor
    · intro ms hms
      obtain ⟨hl, hcells⟩ := collectMembers_ok (hcol ms hms)
      refine ⟨hl, ?_⟩
      intro j row hrow
      obtain ⟨m, hm, hconv⟩ := hcells j row hrow
      exact ⟨m, hm, by simpa using hconv⟩
    · intro j row hrow hfail ms hms
      obtain ⟨hl, hcells⟩ := collectMembers_ok (hcol ms hms)
      obtain ⟨m, hm, hconv⟩ := hcells j row hrow
      exact hfail m (by simpa using hconv)
  · intro hne rows hcv
    simp only [convert_html] at hcv
    cases hfh : Member.from_html doc with
    | ok ms => exact hne ms hfh
    | err e => rw [hfh] at hcv; cases hcv
    | fatal e => rw [hfh] at hcv; cases hcv

/-- Witness to claim C4: the document without a `groupMember` table fails
with the NotFound error and yields no CSV rows; the fixture document yields
exactly one member for its one data row. -/
theorem from_html_atomic_witness :
    (Member.from_html noTableDoc = .err "Failed to extract table" ∧
      ∀ rows, convert_html noTableDoc ≠ .ok rows) ∧
    ([memberW].length = [memberCells].length ∧
      ∀ j row, [memberCells].get? j = some row →
        ∃ m, [memberW].get? j = some m ∧ memberOfRow j row = .ok m) :=
  ⟨(from_html_atomic noTableDoc).1 (by decide),
   ((from_html_atomic memberDoc).2.1 ⟨[], [memberCells]⟩ (by decide)).1
     [memberW] (by decide)⟩

/-- Witness to claim C6 (amended) at concrete names: an `html` file is
processed, differing case or extension is skipped, no extension aborts. -/
theorem walk_filter_spec_witness :
    entryAction (.ok "page.html" true) = .processed ∧
    entryAction (.ok "page.HTML" true) = .skipped ∧
    entryAction (.ok "notes.txt" true) = .skipped ∧
    entryAction (.ok "README" true) = .aborted := by
  refine ⟨(walk_filter_spec.1 "page.html" true).mpr ⟨rfl, by decide⟩,
    walk_filter_spec.2.2.2.1 "page.HTML" "HTML" (by decide) (by decide),
    walk_filter_spec.2.2.2.1 "notes.txt" "txt" (by decide) (by decide),
    walk_filter_spec.2.2.2.2 "README" (by decide)⟩

end QQExtract
